import Mathlib

/-!
Verification of the quotation-line analysis engine (`analyze.py`).

Dates are modelled as integer day numbers: a `pd.Timestamp` difference
`(b - a).days` becomes `b - a`.  Nullable fields become `Option`.
Python's `str.strip`/`str.lower` are modelled on the character list
(the data at hand is ASCII), and `round(a / b)` for `b > 0` is modelled
by `pyRoundDiv a b`, round-half-to-even on the exact rational `a / b`.
`pandas.sort_values` on a single key is modelled by a stable insertion
sort on that key.
-/

namespace QA

/-- One quotation line: lifecycle state and period tag as free text,
nullable start/end dates and quantity (`C_START_DATE`, `C_END_DATE`,
`BUY_QTY_DUE`). -/
structure Line where
  state     : String
  period    : String
  startDate : Option Int
  endDate   : Option Int
  qty       : Option Int
deriving DecidableEq

/-- Date comparison tolerance (`TOLERANCE_DAYS` in analyze.py). -/
def TOLERANCE_DAYS : Int := 5

/-- The fixed period bucket table `(name, target_days, tolerance_days)`. -/
def PERIOD_BUCKETS : List (String × Int × Int) :=
  [("monthly", 30, 10), ("bi-monthly", 60, 10), ("quarterly", 90, 10),
   ("4-month", 120, 10), ("semi-annual", 180, 12), ("annual", 365, 15)]

/-- Python `str.lower`, character by character. -/
def pyLower (s : String) : String := String.mk (s.data.map Char.toLower)

/-- Python `str.strip`: drop leading and trailing whitespace. -/
def pyStrip (s : String) : String :=
  String.mk (((s.data.dropWhile Char.isWhitespace).reverse.dropWhile
      Char.isWhitespace).reverse)

/-- `is_line_active`: a line is excluded when cancelled, once-period, or when
both dates are present with `(end - start).days < 4`; null dates never
exclude on the duration rule. -/
def is_line_active (l : Line) : Bool :=
  !(pyLower (pyStrip l.state) == "cancelled") &&
  !(pyLower (pyStrip l.period) == "once") &&
  (match l.startDate, l.endDate with
   | some s, some e => !(e - s < 4)
   | _, _ => true)

/-- First bucket of the table matching the duration, scanning in order. -/
def find_bucket : List (String × Int × Int) → Int → Option (String × Int)
  | [], _ => none
  | (n, t, tol) :: rest, d =>
      if |d - t| ≤ tol then some (n, t) else find_bucket rest d

/-- `map_to_bucket`: nearest standard period bucket, or
`("irregular", duration)` when no bucket matches. -/
def map_to_bucket (d : Int) : String × Int :=
  (find_bucket PERIOD_BUCKETS d).getD ("irregular", d)

/-- Order on intervals by start date (the sort key `x[0]`). -/
def ivLE (x y : Int × Int) : Prop := x.1 ≤ y.1

instance : DecidableRel ivLE := fun x y => inferInstanceAs (Decidable (x.1 ≤ y.1))

instance : IsTotal (Int × Int) ivLE := ⟨fun x y => le_total x.1 y.1⟩

instance : IsTrans (Int × Int) ivLE := ⟨fun _ _ _ h1 h2 => le_trans h1 h2⟩

/-- Separation of adjacent merged blocks: the next block starts at least two
days after the previous block ends. -/
def ivSep (x y : Int × Int) : Prop := x.2 + 1 < y.1

/-- Sort intervals by start date, as `sorted`/`sort_values` do. -/
def sortIvs (l : List (Int × Int)) : List (Int × Int) :=
  l.insertionSort ivLE

/-- The merge loop of `compute_interval_union`: the current block absorbs the
next interval when its start is at most the block end plus one day, extending
the block end to the maximum; otherwise the block is emitted. -/
def merge_blocks : Int × Int → List (Int × Int) → List (Int × Int)
  | cur, [] => [cur]
  | cur, (s, e) :: rest =>
      if s ≤ cur.2 + 1 then
        merge_blocks (cur.1, if e > cur.2 then e else cur.2) rest
      else
        cur :: merge_blocks (s, e) rest

/-- Total covered days of a block list: sum of `(end - start).days + 1`. -/
def total_days (blocks : List (Int × Int)) : Int :=
  (blocks.map (fun b => b.2 - b.1 + 1)).sum

/-- `compute_interval_union`: sorts the intervals by start, merges overlapping
and adjacent ones, and returns the total covered days with the merged list. -/
def compute_interval_union (ivs : List (Int × Int)) : Int × List (Int × Int) :=
  match sortIvs ivs with
  | [] => (0, [])
  | h :: t =>
      let m := merge_blocks h t
      (total_days m, m)

/-- Recorded gap: `(gap_start, gap_end, gap_days)`. -/
abbrev GapRec := Int × Int × Int

/-- The loop of `detect_gaps`: walks the remaining rows keeping the running
maximum end date, recording a gap whenever the next start exceeds it by more
than `TOLERANCE_DAYS + 1` days. -/
def detect_gaps_aux (runningEnd : Int) : List (Int × Int) → List GapRec
  | [] => []
  | (s, e) :: rest =>
      let g := s - runningEnd - 1
      let tail := detect_gaps_aux (if e > runningEnd then e else runningEnd) rest
      if g > TOLERANCE_DAYS then (runningEnd + 1, s - 1, g) :: tail else tail

/-- `detect_gaps` over a date-sorted list of `(start, end)` rows. -/
def detect_gaps : List (Int × Int) → List GapRec
  | [] => []
  | (_, e) :: rest => detect_gaps_aux e rest

/-- Python `round(a / b)` for `b > 0`: round half to even on the exact
rational value `a / b`. -/
def pyRoundDiv (a b : Int) : Int :=
  let q := a.fdiv b
  let r := a - q * b
  if 2 * r < b then q
  else if b < 2 * r then q + 1
  else if q % 2 = 0 then q else q + 1

/-- `solve_gap`: the number of pattern-length lines filling a gap, when the
gap is within `TOLERANCE_DAYS` of an exact whole multiple of the pattern. -/
def solve_gap (gap_days pattern_days : Int) : Option Int :=
  if pattern_days ≤ 0 then none
  else
    let n := pyRoundDiv gap_days pattern_days
    if n < 1 then none
    else if |gap_days - n * pattern_days| ≤ TOLERANCE_DAYS then some n
    else none

/-- Cell of the result table: either a real value or the `"N/A"` marker. -/
inductive Cell (α : Type) where
  | na : Cell α
  | val : α → Cell α
deriving DecidableEq

/-- Tri-state per-line outlier flag. -/
inductive Flag where
  | yes : Flag
  | no : Flag
  | na : Flag
deriving DecidableEq

/-- Value of `lines_to_add`: a line count or the `"no gap"` sentinel. -/
inductive LinesToAdd where
  | noGap : LinesToAdd
  | num : Int → LinesToAdd
deriving DecidableEq

/-- Active lines of a group, in source row order. -/
def active_lines (ls : List Line) : List Line := ls.filter is_line_active

/-- Internal flag of analyze_group: an active line with both dates null
coexists with an active line having both dates explicit. -/
def has_infinite_overlap (ls : List Line) : Bool :=
  ((active_lines ls).any fun l => l.startDate.isNone && l.endDate.isNone) &&
  ((active_lines ls).any fun l => l.startDate.isSome && l.endDate.isSome)

/-- Effective-date resolution: each null bound is filled from the header;
`none` when a bound is still missing afterwards (the line is dropped from
coverage and voting). -/
def resolve_line (hs he : Option Int) (l : Line) : Option (Int × Int) :=
  match (match l.startDate with | some s => some s | none => hs),
        (match l.endDate with | some e => some e | none => he) with
  | some s, some e => some (s, e)
  | _, _ => none

/-- Effective duration contributed by one line: its resolved interval
length, 0 when the line is unresolvable. -/
def eff_dur (hs he : Option Int) (l : Line) : Int :=
  match resolve_line hs he l with
  | some p => p.2 - p.1 + 1
  | none => 0

/-- Resolved effective intervals of the active lines, in row order. -/
def resolved_ivs (hs he : Option Int) (ls : List Line) : List (Int × Int) :=
  (active_lines ls).filterMap (resolve_line hs he)

/-- The interval rows of `eff_df`: resolved intervals sorted by start. -/
def eff_ivs (hs he : Option Int) (ls : List Line) : List (Int × Int) :=
  sortIvs (resolved_ivs hs he ls)

/-- Voting data of one line: `(effective duration, bucket name, target days)`,
present only when the line resolves. -/
def line_vote (hs he : Option Int) (l : Line) : Option (Int × String × Int) :=
  (resolve_line hs he l).map fun p =>
    let d := p.2 - p.1 + 1
    (d, map_to_bucket d)

/-- Voting data of all resolved active lines, in row order
(`active_durations` / `active_buckets`). -/
def votes (hs he : Option Int) (ls : List Line) : List (Int × String × Int) :=
  (active_lines ls).filterMap (line_vote hs he)

/-- First occurrences, in order — the key order of a Python `Counter`. -/
def first_occs : List String → List String
  | [] => []
  | x :: xs => x :: (first_occs xs).filter (fun y => y != x)

/-- Leftmost maximiser of `f`, as Python `max(xs, key=f)` and the head of
`Counter.most_common` behave on ties. -/
def first_argmax {α : Type} (f : α → Int) : List α → Option α
  | [] => none
  | x :: xs => some (xs.foldl (fun best c => if f best < f c then c else best) x)

/-- Highest vote count over the bucket names. -/
def top_vote_count (names : List String) : Nat :=
  (names.map fun b => names.count b).foldl max 0

/-- Bucket names tied at the highest vote count, in first-occurrence order. -/
def tied_buckets (names : List String) : List String :=
  (first_occs names).filter fun b => names.count b == top_vote_count names

/-- Summed effective duration of the votes in bucket `b`. -/
def bucket_total_days (vts : List (Int × String × Int)) (b : String) : Int :=
  ((vts.filter fun v => v.2.1 == b).map fun v => v.1).sum

/-- Winning cadence bucket: highest vote count, ties resolved to the bucket
with the largest summed duration (leftmost on equality, as Python `max`). -/
def winning_bucket (vts : List (Int × String × Int)) : String :=
  let names := vts.map fun v => v.2.1
  let tied := tied_buckets names
  if 1 < tied.length then
    (first_argmax (bucket_total_days vts) tied).getD "irregular"
  else
    (first_argmax (fun b => (names.count b : Int)) (first_occs names)).getD "irregular"

/-- Sort integers ascending (Python `sorted`). -/
def sortInts (l : List Int) : List Int := l.insertionSort (fun a b => a ≤ b)

/-- Representative days of the winning bucket: the bucket target, or the
upper median of the irregular durations when the winner is "irregular". -/
def winning_days (vts : List (Int × String × Int)) : Int :=
  let wb := winning_bucket vts
  if wb == "irregular" then
    let irr := sortInts ((vts.filter fun v => v.2.1 == "irregular").map fun v => v.1)
    irr.getD (irr.length / 2) 0
  else
    ((PERIOD_BUCKETS.find? fun b => b.1 == wb).map fun b => b.2.1).getD 0

/-- The period-pattern voting result
`(winning_bucket, winning_days, winning_count)`; with no resolvable votes the
pattern is "irregular" with zero days and every active line counted as
a winning vote. -/
def pattern_result (hs he : Option Int) (ls : List Line) : String × Int × Nat :=
  let vts := votes hs he ls
  if vts.isEmpty then ("irregular", 0, (active_lines ls).length)
  else (winning_bucket vts, winning_days vts, top_vote_count (vts.map fun v => v.2.1))

/-- Quantities of the active lines (nulls ignored). -/
def active_qtys (ls : List Line) : List Int :=
  (active_lines ls).filterMap fun l => l.qty

/-- Largest element of a list of integers. -/
def list_max : List Int → Option Int
  | [] => none
  | x :: xs => some (xs.foldl max x)

/-- Smallest element of a list of integers. -/
def list_min : List Int → Option Int
  | [] => none
  | x :: xs => some (xs.foldl min x)

/-- Highest occurrence count over the quantities. -/
def top_qty_count (qs : List Int) : Nat :=
  (qs.map fun q => qs.count q).foldl max 0

/-- Canonical quantity: most frequent value, ties resolved to the larger
value; `none` when no active line has a quantity. -/
def canonical_qty (ls : List Line) : Option Int :=
  let qs := active_qtys ls
  if qs.isEmpty then none
  else list_max (qs.filter fun q => qs.count q == top_qty_count qs)

/-- `group_start`: minimum effective start, falling back to the header start. -/
def group_start_m (hs he : Option Int) (ls : List Line) : Cell Int :=
  match list_min ((eff_ivs hs he ls).map fun p => p.1) with
  | some a => Cell.val a
  | none => match hs with | some h => Cell.val h | none => Cell.na

/-- `group_end`: maximum effective end, falling back to the header end. -/
def group_end_m (hs he : Option Int) (ls : List Line) : Cell Int :=
  match list_max ((eff_ivs hs he ls).map fun p => p.2) with
  | some b => Cell.val b
  | none => match he with | some h => Cell.val h | none => Cell.na

/-- `group_span_days`: max end − min start + 1 over the effective intervals,
0 when there are none. -/
def span_days (hs he : Option Int) (ls : List Line) : Int :=
  match list_min ((eff_ivs hs he ls).map fun p => p.1),
        list_max ((eff_ivs hs he ls).map fun p => p.2) with
  | some a, some b => b - a + 1
  | _, _ => 0

/-- `actual_coverage_days`: the interval-union total of the effective rows. -/
def coverage_days (hs he : Option Int) (ls : List Line) : Int :=
  if (eff_ivs hs he ls).isEmpty then 0
  else (compute_interval_union (eff_ivs hs he ls)).1

/-- `gap_days` = span − coverage. -/
def gap_days_calc (hs he : Option Int) (ls : List Line) : Int :=
  span_days hs he ls - coverage_days hs he ls

/-- The internal gaps of the group: `detect_gaps` over the effective rows. -/
def gaps_calc (hs he : Option Int) (ls : List Line) : List GapRec :=
  detect_gaps (eff_ivs hs he ls)

/-- Sum of the individual interval lengths. -/
def sum_durs (ivs : List (Int × Int)) : Int :=
  (ivs.map fun p => p.2 - p.1 + 1).sum

/-- `overlap_days` = max 0 (sum of individual lengths − coverage). -/
def overlap_days_calc (hs he : Option Int) (ls : List Line) : Int :=
  if (eff_ivs hs he ls).isEmpty then 0
  else max 0 (sum_durs (eff_ivs hs he ls) - coverage_days hs he ls)

/-- The loop counting intervals that start at or before the running maximum
end of the previous intervals. -/
def overlap_count_aux (runningEnd : Int) : List (Int × Int) → Nat
  | [] => 0
  | (s, e) :: rest =>
      (if s ≤ runningEnd then 1 else 0) +
        overlap_count_aux (if e > runningEnd then e else runningEnd) rest

/-- `overlap_count` over the start-sorted intervals. -/
def overlap_count_calc (hs he : Option Int) (ls : List Line) : Nat :=
  match sortIvs (eff_ivs hs he ls) with
  | [] => 0
  | (_, e) :: rest => overlap_count_aux e rest

/-- Header-alignment outcome together with the data the solver step reuses. -/
structure AlignInfo where
  header_aligned  : Cell String
  start_alignment : Cell String
  end_alignment   : Cell String
  start_ok        : Bool
  end_ok          : Bool
  start_diff      : Int
  end_diff        : Int
deriving DecidableEq

/-- Header alignment: compares the group window with the header window when
both are fully known; otherwise everything is not-available and the solver
skips the header-edge gap checks. -/
def header_alignment (hs he : Option Int) (ls : List Line) : AlignInfo :=
  match hs, he, group_start_m hs he ls, group_end_m hs he ls with
  | some h1, some h2, Cell.val gs, Cell.val ge =>
      let sd := gs - h1
      let ed := ge - h2
      let sok := decide (|sd| ≤ TOLERANCE_DAYS)
      let eok := decide (|ed| ≤ TOLERANCE_DAYS)
      { header_aligned := Cell.val (if sok && eok then "YES" else "NO"),
        start_alignment := Cell.val
          (if sok then "aligned"
           else if 0 < sd then "starts " ++ toString sd ++ "d late"
           else "starts " ++ toString (-sd) ++ "d early"),
        end_alignment := Cell.val
          (if eok then "aligned"
           else if ed < 0 then "ends " ++ toString (-ed) ++ "d early"
           else "ends " ++ toString ed ++ "d late"),
        start_ok := sok, end_ok := eok,
        start_diff := sd, end_diff := ed }
  | _, _, _, _ =>
      { header_aligned := Cell.na, start_alignment := Cell.na,
        end_alignment := Cell.na,
        start_ok := true, end_ok := true, start_diff := 0, end_diff := 0 }

/-- Per-gap solver step of analyze_group: a gap under an irregular cadence is
never solved; otherwise `solve_gap` against the winning target days. -/
def gap_solution (wb : String) (wd G : Int) : Option Int :=
  if wb ≠ "irregular" then solve_gap G wd else none

/-- Sizes of all gaps: internal gaps, then the header-edge gaps. -/
def all_gap_sizes (hs he : Option Int) (ls : List Line) : List Int :=
  let ai := header_alignment hs he ls
  ((gaps_calc hs he ls).map fun g => g.2.2) ++
  (if ai.start_ok = false ∧ TOLERANCE_DAYS < ai.start_diff
   then [ai.start_diff] else []) ++
  (if ai.end_ok = false ∧ ai.end_diff < -TOLERANCE_DAYS
   then [-ai.end_diff] else [])

/-- Group-level metrics of analyze_group (the analysis fields of `gm`;
presentation-string fields are represented by their numeric content:
`gap_sizes` for `gap_list` and `solutions` for `solution_list`). -/
structure GroupMetrics where
  group_line_count        : Nat
  group_active_line_count : Nat
  group_start             : Cell Int
  group_end               : Cell Int
  group_span_days         : Cell Int
  actual_coverage_days    : Cell Int
  inferred_period_pattern : Cell String
  inferred_period_days    : Cell Int
  avg_period_days         : Cell Int
  period_confidence_pct   : Cell Int
  canonical_qty_val       : Cell Int
  qty_confidence_pct      : Cell Int
  gap_days                : Cell Int
  gap_count               : Cell Nat
  overlap_days            : Cell Int
  overlap_count           : Cell Nat
  header_aligned          : Cell String
  start_alignment         : Cell String
  end_alignment           : Cell String
  lines_to_add            : LinesToAdd
  gap_sizes               : List Int
  solutions               : List (Option Int)
deriving DecidableEq

/-- Per-line result: the two tri-state outlier flags. -/
structure LineResult where
  is_period_outlier : Flag
  is_qty_outlier    : Flag
deriving DecidableEq

/-- Per-line outlier flags (step 8 of analyze_group). -/
def line_result (hs he : Option Int) (ls : List Line) (l : Line) : LineResult :=
  let act := is_line_active l
  let po :=
    if act then
      match line_vote hs he l with
      | some v => if v.2.1 ≠ (pattern_result hs he ls).1 then Flag.yes else Flag.no
      | none => Flag.na
    else Flag.na
  let qo :=
    if !act then Flag.na
    else
      match canonical_qty ls with
      | none => Flag.na
      | some c => if l.qty = some c then Flag.no else Flag.yes
  ⟨po, qo⟩

/-- analyze_group: group metrics plus one result per line, in row order. -/
def analyze_group (ls : List Line) (hs he : Option Int) :
    GroupMetrics × List LineResult :=
  if (active_lines ls).isEmpty then
    ({ group_line_count := ls.length,
       group_active_line_count := 0,
       group_start := Cell.na, group_end := Cell.na,
       group_span_days := Cell.val 0, actual_coverage_days := Cell.val 0,
       inferred_period_pattern := Cell.na, inferred_period_days := Cell.na,
       avg_period_days := Cell.na, period_confidence_pct := Cell.na,
       canonical_qty_val := Cell.na, qty_confidence_pct := Cell.na,
       gap_days := Cell.val 0, gap_count := Cell.val 0,
       overlap_days := Cell.val 0, overlap_count := Cell.val 0,
       header_aligned := Cell.na, start_alignment := Cell.na,
       end_alignment := Cell.na,
       lines_to_add := LinesToAdd.noGap, gap_sizes := [], solutions := [] },
     ls.map fun _ => ⟨Flag.na, Flag.na⟩)
  else
    let nA : Int := (active_lines ls).length
    let pr := pattern_result hs he ls
    let durs := (votes hs he ls).map fun v => v.1
    let valid := durs.filter fun d => decide (0 < d)
    let ai := header_alignment hs he ls
    let gsz := all_gap_sizes hs he ls
    let sols := gsz.map (gap_solution pr.1 pr.2.1)
    let tta := (sols.filterMap id).sum
    ({ group_line_count := ls.length,
       group_active_line_count := (active_lines ls).length,
       group_start := group_start_m hs he ls,
       group_end := group_end_m hs he ls,
       group_span_days := Cell.val (span_days hs he ls),
       actual_coverage_days := Cell.val (coverage_days hs he ls),
       inferred_period_pattern := Cell.val pr.1,
       inferred_period_days := Cell.val pr.2.1,
       avg_period_days :=
         if valid.isEmpty then Cell.na
         else Cell.val (pyRoundDiv valid.sum valid.length),
       period_confidence_pct := Cell.val (pyRoundDiv ((pr.2.2 : Int) * 100) nA),
       canonical_qty_val :=
         match canonical_qty ls with
         | some c => Cell.val c
         | none => Cell.na,
       qty_confidence_pct :=
         match canonical_qty ls with
         | some _ =>
             Cell.val (pyRoundDiv ((top_qty_count (active_qtys ls) : Int) * 100) nA)
         | none => Cell.na,
       gap_days := Cell.val (gap_days_calc hs he ls),
       gap_count := Cell.val (gaps_calc hs he ls).length,
       overlap_days := Cell.val (overlap_days_calc hs he ls),
       overlap_count := Cell.val (overlap_count_calc hs he ls),
       header_aligned := ai.header_aligned,
       start_alignment := ai.start_alignment,
       end_alignment := ai.end_alignment,
       lines_to_add :=
         if 0 < tta then LinesToAdd.num tta
         else if gsz.length = 0 then LinesToAdd.noGap else LinesToAdd.num 0,
       gap_sizes := gsz,
       solutions := sols },
     ls.map (line_result hs he ls))

/-! Helper lemmas. -/

/-- Rounding a quotient of the form `(m * 100) / m` gives exactly 100. -/
theorem pyRoundDiv_mul_self (m : Int) (hm : 0 < m) : pyRoundDiv (m * 100) m = 100 := by
  unfold pyRoundDiv
  rw [Int.mul_fdiv_cancel_left _ (by omega : m ≠ 0)]
  dsimp only
  split_ifs <;> omega

/-- A `filterMap` over a list where the function always succeeds keeps the
length. -/
theorem length_filterMap_of_all_some {α β : Type} (f : α → Option β) :
    ∀ l : List α, (∀ a ∈ l, (f a).isSome) → (l.filterMap f).length = l.length
  | [], _ => rfl
  | a :: t, h => by
    obtain ⟨b, hb⟩ := Option.isSome_iff_exists.mp (h a (List.mem_cons_self a t))
    rw [List.filterMap_cons, hb]
    simp only [List.length_cons]
    rw [length_filterMap_of_all_some f t (fun x hx => h x (List.mem_cons_of_mem a hx))]

/-! C7: the gap solver. -/

/-- C7: for every gap of size `G` and non-irregular winning cadence with
target days `T > 0`, the per-gap solver returns `some n` for
`n = round(G / T)` exactly when `n ≥ 1` and `|G − n·T| ≤ tolerance`;
under an irregular winning cadence every gap is unsolved. -/
theorem solve_gap_spec (G T d : Int) (b : String) (hT : 0 < T)
    (hb : b ≠ "irregular") :
    gap_solution "irregular" d G = none ∧
    gap_solution b T G =
      (if 1 ≤ pyRoundDiv G T ∧ |G - pyRoundDiv G T * T| ≤ TOLERANCE_DAYS
       then some (pyRoundDiv G T) else none) := by
  refine ⟨by simp [gap_solution], ?_⟩
  rw [gap_solution, if_pos hb]
  unfold solve_gap
  rw [if_neg (not_le.mpr hT)]
  by_cases h1 : pyRoundDiv G T < 1
  · simp only [if_pos h1]
    rw [if_neg]
    intro hc
    omega
  · simp only [if_neg h1]
    by_cases h2 : |G - pyRoundDiv G T * T| ≤ TOLERANCE_DAYS
    · rw [if_pos h2, if_pos ⟨by omega, h2⟩]
    · rw [if_neg h2, if_neg (fun hc => h2 hc.2)]

/-- Witness for `solve_gap_spec` at `G = 182`, `T = 90`. -/
theorem solve_gap_spec_witness :
    gap_solution "irregular" 90 182 = none ∧
    gap_solution "quarterly" 90 182 =
      (if 1 ≤ pyRoundDiv 182 90 ∧ |182 - pyRoundDiv 182 90 * 90| ≤ TOLERANCE_DAYS
       then some (pyRoundDiv 182 90) else none) :=
  solve_gap_spec 182 90 90 "quarterly" (by decide) (by decide)

/-! C6: the tolerance boundary of gap detection. -/

/-- C6 (amended): at a boundary whose uncovered distance from the running
maximum end is at most the tolerance (in particular exactly 5 days) no gap
entry is recorded, while a distance of tolerance + 1 (6 days) is always
recorded; for a two-row group this specialises to `detect_gaps` returning
nothing at a 5-day gap and one entry at a 6-day gap.  (The group-level
`gap_days` metric, however, is span − coverage and does count the 5
uncovered days; see the counterexample.) -/
theorem detect_gaps_tolerance (R s e s1 e1 s2 e2 : Int)
    (rest : List (Int × Int)) :
    (s - R - 1 ≤ TOLERANCE_DAYS →
      detect_gaps_aux R ((s, e) :: rest) =
        detect_gaps_aux (if e > R then e else R) rest) ∧
    (s - R - 1 = TOLERANCE_DAYS + 1 →
      detect_gaps_aux R ((s, e) :: rest) =
        (R + 1, s - 1, TOLERANCE_DAYS + 1) ::
          detect_gaps_aux (if e > R then e else R) rest) ∧
    (s2 - e1 - 1 = TOLERANCE_DAYS → detect_gaps [(s1, e1), (s2, e2)] = []) ∧
    (s2 - e1 - 1 = TOLERANCE_DAYS + 1 →
      detect_gaps [(s1, e1), (s2, e2)] = [(e1 + 1, s2 - 1, TOLERANCE_DAYS + 1)]) := by
  refine ⟨fun h => ?_, fun h => ?_, fun h => ?_, fun h => ?_⟩
  · simp only [detect_gaps_aux]
    rw [if_neg (by simp only [TOLERANCE_DAYS] at h ⊢; omega)]
  · simp only [detect_gaps_aux]
    rw [if_pos (by simp only [TOLERANCE_DAYS] at h ⊢; omega), h]
  · simp only [detect_gaps, detect_gaps_aux]
    rw [if_neg (by simp only [TOLERANCE_DAYS] at h ⊢; omega)]
  · simp only [detect_gaps, detect_gaps_aux]
    rw [if_pos (by simp only [TOLERANCE_DAYS] at h ⊢; omega), h]

/-- Witness for `detect_gaps_tolerance` at concrete boundaries. -/
theorem detect_gaps_tolerance_witness :
    (detect_gaps_aux 89 [(95, 184)] = detect_gaps_aux (if 184 > 89 then 184 else 89) []) ∧
    detect_gaps [(0, 89), (95, 184)] = [] ∧
    detect_gaps [(0, 89), (96, 185)] = [(90, 95, TOLERANCE_DAYS + 1)] := by
  have h := detect_gaps_tolerance 89 95 184 0 89 96 185 []
  have h2 := detect_gaps_tolerance 89 95 184 0 89 95 184 []
  exact ⟨h.1 (by decide), h2.2.2.1 (by decide), h.2.2.2 (by decide)⟩

/-- C6 counterexample: a two-line group with exactly 5 uncovered days between
the lines records no gap (`gap_count` 0) but reports `gap_days = 5`, not 0. -/
theorem gap_tolerance_gap_days_cex :
    (analyze_group [⟨"released", "monthly", some 0, some 89, some 100⟩,
                    ⟨"released", "monthly", some 95, some 184, some 100⟩]
        none none).1.gap_count = Cell.val 0 ∧
    (analyze_group [⟨"released", "monthly", some 0, some 89, some 100⟩,
                    ⟨"released", "monthly", some 95, some 184, some 100⟩]
        none none).1.gap_days = Cell.val 5 ∧
    Cell.val (5 : Int) ≠ Cell.val (0 : Int) := by decide

/-! C9: groups with zero active lines. -/

/-- C9 (amended): with zero active lines analyze_group returns without
failing; the date, pattern, quantity and alignment metrics collapse to the
not-available marker, while the span/coverage/gap/overlap metrics take the
numeric value 0, `lines_to_add` the "no gap" sentinel, the list fields are
empty, and every per-line outlier flag is not-applicable. -/
theorem analyze_group_no_active (ls : List Line) (hs he : Option Int)
    (h : active_lines ls = []) :
    analyze_group ls hs he =
      ({ group_line_count := ls.length,
         group_active_line_count := 0,
         group_start := Cell.na, group_end := Cell.na,
         group_span_days := Cell.val 0, actual_coverage_days := Cell.val 0,
         inferred_period_pattern := Cell.na, inferred_period_days := Cell.na,
         avg_period_days := Cell.na, period_confidence_pct := Cell.na,
         canonical_qty_val := Cell.na, qty_confidence_pct := Cell.na,
         gap_days := Cell.val 0, gap_count := Cell.val 0,
         overlap_days := Cell.val 0, overlap_count := Cell.val 0,
         header_aligned := Cell.na, start_alignment := Cell.na,
         end_alignment := Cell.na,
         lines_to_add := LinesToAdd.noGap, gap_sizes := [], solutions := [] },
       ls.map fun _ => ⟨Flag.na, Flag.na⟩) := by
  rw [analyze_group, if_pos (by simp [h])]

/-- Witness for `analyze_group_no_active` on a single cancelled line. -/
theorem analyze_group_no_active_witness :
    active_lines [⟨"cancelled", "monthly", some 0, some 100, some 5⟩] = [] ∧
    analyze_group [⟨"cancelled", "monthly", some 0, some 100, some 5⟩] none none =
      ({ group_line_count := 1,
         group_active_line_count := 0,
         group_start := Cell.na, group_end := Cell.na,
         group_span_days := Cell.val 0, actual_coverage_days := Cell.val 0,
         inferred_period_pattern := Cell.na, inferred_period_days := Cell.na,
         avg_period_days := Cell.na, period_confidence_pct := Cell.na,
         canonical_qty_val := Cell.na, qty_confidence_pct := Cell.na,
         gap_days := Cell.val 0, gap_count := Cell.val 0,
         overlap_days := Cell.val 0, overlap_count := Cell.val 0,
         header_aligned := Cell.na, start_alignment := Cell.na,
         end_alignment := Cell.na,
         lines_to_add := LinesToAdd.noGap, gap_sizes := [], solutions := [] },
       [⟨Flag.na, Flag.na⟩]) := by
  refine ⟨by decide, ?_⟩
  rw [analyze_group_no_active _ none none (by decide)]
  decide

/-- C9 counterexample: for a zero-active group the span, coverage, gap and
overlap metrics are the numeric value 0, not the not-available marker the
claim requires. -/
theorem no_active_metrics_cex :
    (analyze_group [⟨"cancelled", "monthly", some 0, some 100, some 5⟩]
        none none).1.group_span_days = Cell.val 0 ∧
    (analyze_group [⟨"cancelled", "monthly", some 0, some 100, some 5⟩]
        none none).1.actual_coverage_days = Cell.val 0 ∧
    (analyze_group [⟨"cancelled", "monthly", some 0, some 100, some 5⟩]
        none none).1.gap_days = Cell.val 0 ∧
    (analyze_group [⟨"cancelled", "monthly", some 0, some 100, some 5⟩]
        none none).1.gap_count = Cell.val 0 ∧
    (analyze_group [⟨"cancelled", "monthly", some 0, some 100, some 5⟩]
        none none).1.overlap_days = Cell.val 0 ∧
    (analyze_group [⟨"cancelled", "monthly", some 0, some 100, some 5⟩]
        none none).1.overlap_count = Cell.val 0 ∧
    Cell.val (0 : Int) ≠ (Cell.na : Cell Int) ∧
    Cell.val (0 : Nat) ≠ (Cell.na : Cell Nat) := by decide

/-! Fold lemmas for running minima and maxima. -/

theorem le_foldl_max : ∀ (l : List Int) (x : Int), x ≤ l.foldl max x
  | [], x => le_refl x
  | a :: t, x => le_trans (le_max_left x a) (le_foldl_max t (max x a))

theorem mem_le_foldl_max : ∀ (l : List Int) (x y : Int), y ∈ l → y ≤ l.foldl max x
  | [], _, y, hy => absurd hy (List.not_mem_nil y)
  | a :: t, x, y, hy => by
    rcases List.mem_cons.mp hy with h | h
    · subst h
      exact le_trans (le_max_right x y) (le_foldl_max t _)
    · exact mem_le_foldl_max t (max x a) y h

theorem foldl_max_le : ∀ (l : List Int) (x b : Int), x ≤ b → (∀ y ∈ l, y ≤ b) →
    l.foldl max x ≤ b
  | [], _, _, hx, _ => hx
  | a :: t, x, b, hx, h =>
    foldl_max_le t (max x a) b (max_le hx (h a (List.mem_cons_self a t)))
      (fun y hy => h y (List.mem_cons_of_mem a hy))

theorem foldl_max_mem : ∀ (l : List Int) (x : Int), l.foldl max x ∈ x :: l
  | [], x => List.mem_singleton.mpr rfl
  | a :: t, x => by
    have hm := foldl_max_mem t (max x a)
    rcases List.mem_cons.mp hm with h | h
    · rw [List.foldl_cons, h]
      rcases max_choice x a with h1 | h1 <;> rw [h1]
      · exact List.mem_cons_self x _
      · exact List.mem_cons_of_mem x (List.mem_cons_self a t)
    · exact List.mem_cons_of_mem x (List.mem_cons_of_mem a h)

theorem foldl_min_eq_self : ∀ (l : List Int) (x : Int), (∀ y ∈ l, x ≤ y) →
    l.foldl min x = x
  | [], _, _ => rfl
  | a :: t, x, h => by
    rw [List.foldl_cons, min_eq_left (h a (List.mem_cons_self a t))]
    exact foldl_min_eq_self t x (fun y hy => h y (List.mem_cons_of_mem a hy))

theorem le_foldl_min : ∀ (l : List Int) (x a : Int), a ≤ x → (∀ y ∈ l, a ≤ y) →
    a ≤ l.foldl min x
  | [], _, _, hx, _ => hx
  | b :: t, x, a, hx, h =>
    le_foldl_min t (min x b) a (le_min hx (h b (List.mem_cons_self b t)))
      (fun y hy => h y (List.mem_cons_of_mem b hy))

theorem getLastD_mem_cons {α : Type} : ∀ (l : List α) (d : α), l.getLastD d ∈ d :: l
  | [], _ => List.mem_singleton.mpr rfl
  | a :: t, d => by
    rw [List.getLastD_cons]
    exact List.mem_cons_of_mem d (getLastD_mem_cons t a)

/-! Structure of the merged block list. -/

theorem total_days_cons (b : Int × Int) (l : List (Int × Int)) :
    total_days (b :: l) = (b.2 - b.1 + 1) + total_days l := by
  simp [total_days]

theorem merge_blocks_ne_nil : ∀ (t : List (Int × Int)) (cur : Int × Int),
    merge_blocks cur t ≠ []
  | [], cur => by simp [merge_blocks]
  | (s, e) :: rest, cur => by
    by_cases h : s ≤ cur.2 + 1
    · rw [merge_blocks, if_pos h]
      exact merge_blocks_ne_nil rest _
    · rw [merge_blocks, if_neg h]
      simp

theorem merge_blocks_head_start : ∀ (t : List (Int × Int)) (c1 ce : Int),
    ∃ c2 rest2, merge_blocks (c1, ce) t = (c1, c2) :: rest2
  | [], c1, ce => ⟨ce, [], rfl⟩
  | (s, e) :: rest, c1, ce => by
    by_cases h : s ≤ ce + 1
    · rw [merge_blocks, if_pos h]
      exact merge_blocks_head_start rest c1 _
    · rw [merge_blocks, if_neg h]
      exact ⟨ce, _, rfl⟩

theorem merge_blocks_chain_sep : ∀ (t : List (Int × Int)) (cur : Int × Int),
    List.Chain' ivSep (merge_blocks cur t)
  | [], cur => by simp [merge_blocks]
  | (s, e) :: rest, cur => by
    by_cases h : s ≤ cur.2 + 1
    · rw [merge_blocks, if_pos h]
      exact merge_blocks_chain_sep rest _
    · rw [merge_blocks, if_neg h]
      rw [List.chain'_cons']
      refine ⟨?_, merge_blocks_chain_sep rest (s, e)⟩
      intro y hy
      obtain ⟨c2, r2, hm⟩ := merge_blocks_head_start rest s e
      rw [hm] at hy
      simp only [List.head?_cons, Option.mem_def, Option.some_inj] at hy
      rw [← hy]
      show cur.2 + 1 < s
      omega

theorem merge_blocks_ends : ∀ (t : List (Int × Int)) (cur : Int × Int),
    ∀ b ∈ merge_blocks cur t, ∃ x ∈ cur :: t, b.2 = x.2
  | [], cur => by
    intro b hb
    simp only [merge_blocks, List.mem_singleton] at hb
    exact ⟨cur, List.mem_cons_self cur [], by rw [hb]⟩
  | (s, e) :: rest, cur => by
    intro b hb
    by_cases h : s ≤ cur.2 + 1
    · rw [merge_blocks, if_pos h] at hb
      obtain ⟨x, hx, hbe⟩ := merge_blocks_ends rest _ b hb
      rcases List.mem_cons.mp hx with h1 | h2
      · by_cases hegt : e > cur.2
        · refine ⟨(s, e), List.mem_cons_of_mem cur (List.mem_cons_self _ rest), ?_⟩
          rw [hbe, h1]
          simp [hegt]
        · refine ⟨cur, List.mem_cons_self cur _, ?_⟩
          rw [hbe, h1]
          simp [hegt]
      · exact ⟨x, List.mem_cons_of_mem cur (List.mem_cons_of_mem (s, e) h2), hbe⟩
    · rw [merge_blocks, if_neg h] at hb
      rcases List.mem_cons.mp hb with h1 | h2
      · exact ⟨cur, List.mem_cons_self cur _, by rw [h1]⟩
      · obtain ⟨x, hx, hbe⟩ := merge_blocks_ends rest (s, e) b h2
        rcases List.mem_cons.mp hx with h1' | h2'
        · refine ⟨(s, e), List.mem_cons_of_mem cur (List.mem_cons_self _ rest), ?_⟩
          rw [hbe, h1']
        · exact ⟨x, List.mem_cons_of_mem cur (List.mem_cons_of_mem (s, e) h2'), hbe⟩

theorem merge_blocks_starts : ∀ (t : List (Int × Int)) (cur : Int × Int),
    ∀ b ∈ merge_blocks cur t, ∃ x ∈ cur :: t, b.1 = x.1
  | [], cur => by
    intro b hb
    simp only [merge_blocks, List.mem_singleton] at hb
    exact ⟨cur, List.mem_cons_self cur [], by rw [hb]⟩
  | (s, e) :: rest, cur => by
    intro b hb
    by_cases h : s ≤ cur.2 + 1
    · rw [merge_blocks, if_pos h] at hb
      obtain ⟨x, hx, hbs⟩ := merge_blocks_starts rest _ b hb
      rcases List.mem_cons.mp hx with h1 | h2
      · exact ⟨cur, List.mem_cons_self cur _, by rw [hbs, h1]⟩
      · exact ⟨x, List.mem_cons_of_mem cur (List.mem_cons_of_mem (s, e) h2), hbs⟩
    · rw [merge_blocks, if_neg h] at hb
      rcases List.mem_cons.mp hb with h1 | h2
      · exact ⟨cur, List.mem_cons_self cur _, by rw [h1]⟩
      · obtain ⟨x, hx, hbs⟩ := merge_blocks_starts rest (s, e) b h2
        rcases List.mem_cons.mp hx with h1' | h2'
        · refine ⟨(s, e), List.mem_cons_of_mem cur (List.mem_cons_self _ rest), ?_⟩
          rw [hbs, h1']
        · exact ⟨x, List.mem_cons_of_mem cur (List.mem_cons_of_mem (s, e) h2'), hbs⟩

/-- Telescoping bound over a separated block list: the total is at most the
last end minus the first start plus one, losing at least one day per
additional block. -/
theorem total_le_of_sep : ∀ (l : List (Int × Int)) (b : Int × Int),
    List.Chain' ivSep (b :: l) →
    total_days (b :: l) ≤ (l.getLastD b).2 - b.1 + 1 - l.length
  | [], b, _ => by simp [total_days]
  | c :: l, b, h => by
    have hbc : b.2 + 1 < c.1 := (List.chain'_cons.mp h).1
    have ih := total_le_of_sep l c (List.chain'_cons.mp h).2
    rw [total_days_cons, List.getLastD_cons]
    rw [total_days_cons] at ih ⊢
    simp only [List.length_cons]
    omega

/-- When the gap walk records something, the merge produces at least two
blocks; the running end `R` always dominates the current block end `ce`. -/
theorem merge_two_blocks_of_gap : ∀ (t : List (Int × Int)) (c1 ce R : Int),
    ce ≤ R → detect_gaps_aux R t ≠ [] → 2 ≤ (merge_blocks (c1, ce) t).length
  | [], _, _, _, _, hg => absurd rfl hg
  | (s, e) :: rest, c1, ce, R, hce, hg => by
    simp only [detect_gaps_aux] at hg
    have htol : TOLERANCE_DAYS = 5 := rfl
    by_cases hgap : s - R - 1 > TOLERANCE_DAYS
    · have hs : ¬ s ≤ ce + 1 := by omega
      rw [merge_blocks, if_neg hs]
      simp only [List.length_cons]
      have h1 : 0 < (merge_blocks (s, e) rest).length :=
        List.length_pos.mpr (merge_blocks_ne_nil rest (s, e))
      omega
    · rw [if_neg hgap] at hg
      by_cases hm : s ≤ ce + 1
      · rw [merge_blocks, if_pos hm]
        refine merge_two_blocks_of_gap rest c1 _ (if e > R then e else R) ?_ hg
        dsimp only
        split_ifs <;> omega
      · rw [merge_blocks, if_neg hm]
        simp only [List.length_cons]
        have h1 : 0 < (merge_blocks (s, e) rest).length :=
          List.length_pos.mpr (merge_blocks_ne_nil rest (s, e))
        omega

/-- The effective rows are sorted by start. -/
theorem eff_ivs_sorted (hs he : Option Int) (ls : List Line) :
    List.Sorted ivLE (eff_ivs hs he ls) :=
  List.sorted_insertionSort ivLE (resolved_ivs hs he ls)

/-- Re-sorting the effective rows leaves them unchanged. -/
theorem sortIvs_eff (hs he : Option Int) (ls : List Line) :
    sortIvs (eff_ivs hs he ls) = eff_ivs hs he ls :=
  List.Sorted.insertionSort_eq (eff_ivs_sorted hs he ls)

/-- Shared core bound: coverage is at most span, strictly so when gap
detection records an internal gap. -/
theorem cov_bounds (hs he : Option Int) (ls : List Line) :
    coverage_days hs he ls ≤ span_days hs he ls ∧
    (gaps_calc hs he ls ≠ [] → coverage_days hs he ls < span_days hs he ls) := by
  cases hE : eff_ivs hs he ls with
  | nil =>
    constructor
    · rw [coverage_days, span_days, hE]
      simp [list_min, list_max]
    · intro hg
      exact absurd (by rw [gaps_calc, hE]; rfl) hg
  | cons hh t =>
    obtain ⟨a1, a2⟩ := hh
    have hsorted : List.Sorted ivLE ((a1, a2) :: t) := hE ▸ eff_ivs_sorted hs he ls
    have hse : sortIvs (eff_ivs hs he ls) = (a1, a2) :: t := by
      rw [sortIvs_eff hs he ls, hE]
    have hcu : compute_interval_union (eff_ivs hs he ls) =
        (total_days (merge_blocks (a1, a2) t), merge_blocks (a1, a2) t) := by
      simp only [compute_interval_union, hse]
    have hc : coverage_days hs he ls = total_days (merge_blocks (a1, a2) t) := by
      rw [coverage_days, if_neg (by simp [hE]), hcu]
    have hsp : span_days hs he ls =
        ((t.map Prod.snd).foldl max a2) - ((t.map Prod.fst).foldl min a1) + 1 := by
      rw [span_days, hE]
      simp [list_min, list_max]
    have hmin : (t.map Prod.fst).foldl min a1 = a1 := by
      apply foldl_min_eq_self
      intro y hy
      obtain ⟨x, hx, hxy⟩ := List.mem_map.mp hy
      rw [← hxy]
      exact (List.pairwise_cons.mp hsorted).1 x hx
    obtain ⟨c2, tb, hm⟩ := merge_blocks_head_start t a1 a2
    have hchain := merge_blocks_chain_sep t (a1, a2)
    rw [hm] at hchain
    have htel := total_le_of_sep tb (a1, c2) hchain
    have hLmem : tb.getLastD (a1, c2) ∈ merge_blocks (a1, a2) t := by
      rw [hm]
      exact getLastD_mem_cons tb (a1, c2)
    obtain ⟨x, hx, hxe⟩ := merge_blocks_ends t (a1, a2) _ hLmem
    have hxle : (tb.getLastD (a1, c2)).2 ≤ (t.map Prod.snd).foldl max a2 := by
      rw [hxe]
      rcases List.mem_cons.mp hx with h1 | h2
      · rw [h1]
        exact le_foldl_max _ _
      · exact mem_le_foldl_max _ _ _ (List.mem_map.mpr ⟨x, h2, rfl⟩)
    constructor
    · rw [hc, hsp, hmin, hm]
      omega
    · intro hg
      have hgaux : detect_gaps_aux a2 t ≠ [] := by
        rw [gaps_calc, hE] at hg
        exact hg
      have h2b := merge_two_blocks_of_gap t a1 a2 a2 (le_refl a2) hgaux
      rw [hm] at h2b
      simp only [List.length_cons] at h2b
      rw [hc, hsp, hmin, hm]
      omega

/-! C4: coverage versus span. -/

/-- C4 (amended): coverage never exceeds span, and when coverage equals span
gap detection records no internal gap (`gap_count = 0`).  The converse
implication of the claim fails — see the counterexample — because uncovered
stretches of at most the tolerance reduce coverage without being recorded.
The analyze_group record carries exactly these quantities. -/
theorem coverage_span_gap_count (hs he : Option Int) (ls : List Line) :
    coverage_days hs he ls ≤ span_days hs he ls ∧
    (coverage_days hs he ls = span_days hs he ls → gaps_calc hs he ls = []) ∧
    (active_lines ls ≠ [] →
      (analyze_group ls hs he).1.actual_coverage_days =
        Cell.val (coverage_days hs he ls) ∧
      (analyze_group ls hs he).1.group_span_days =
        Cell.val (span_days hs he ls) ∧
      (analyze_group ls hs he).1.gap_count =
        Cell.val (gaps_calc hs he ls).length) := by
  refine ⟨(cov_bounds hs he ls).1, fun heq => ?_, fun h => ?_⟩
  · by_contra hg
    exact absurd heq (ne_of_lt ((cov_bounds hs he ls).2 hg))
  · have hne : (active_lines ls).isEmpty = false := by
      cases hAL : active_lines ls with
      | nil => exact absurd hAL h
      | cons a t => rfl
    rw [analyze_group, if_neg (by rw [hne]; exact Bool.false_ne_true)]
    exact ⟨rfl, rfl, rfl⟩

/-- Witness for `coverage_span_gap_count` on a gap-free two-line group. -/
theorem coverage_span_gap_count_witness :
    coverage_days none none
        [⟨"released", "monthly", some 0, some 89, some 100⟩,
         ⟨"released", "monthly", some 90, some 180, some 100⟩] ≤
      span_days none none
        [⟨"released", "monthly", some 0, some 89, some 100⟩,
         ⟨"released", "monthly", some 90, some 180, some 100⟩] ∧
    gaps_calc none none
        [⟨"released", "monthly", some 0, some 89, some 100⟩,
         ⟨"released", "monthly", some 90, some 180, some 100⟩] = [] ∧
    (analyze_group
        [⟨"released", "monthly", some 0, some 89, some 100⟩,
         ⟨"released", "monthly", some 90, some 180, some 100⟩]
        none none).1.group_span_days =
      Cell.val (span_days none none
        [⟨"released", "monthly", some 0, some 89, some 100⟩,
         ⟨"released", "monthly", some 90, some 180, some 100⟩]) := by
  have h := coverage_span_gap_count none none
    [⟨"released", "monthly", some 0, some 89, some 100⟩,
     ⟨"released", "monthly", some 90, some 180, some 100⟩]
  exact ⟨h.1, h.2.1 (by decide), (h.2.2 (by decide)).2.1⟩

/-- C4 counterexample: a 3-day uncovered stretch leaves coverage strictly
below span although gap detection records nothing, refuting the "if and only
if" of the claim. -/
theorem coverage_span_iff_cex :
    (analyze_group [⟨"released", "monthly", some 0, some 89, some 100⟩,
                    ⟨"released", "monthly", some 93, some 182, some 100⟩]
        none none).1.actual_coverage_days = Cell.val 180 ∧
    (analyze_group [⟨"released", "monthly", some 0, some 89, some 100⟩,
                    ⟨"released", "monthly", some 93, some 182, some 100⟩]
        none none).1.group_span_days = Cell.val 183 ∧
    (analyze_group [⟨"released", "monthly", some 0, some 89, some 100⟩,
                    ⟨"released", "monthly", some 93, some 182, some 100⟩]
        none none).1.gap_count = Cell.val 0 ∧
    ¬((180 : Int) = 183 ↔ (0 : Nat) = 0) := by decide

/-! C5: idempotence of the interval merge. -/

/-- Merging a block list whose adjacent blocks are separated changes
nothing. -/
theorem merge_blocks_of_sep : ∀ (t : List (Int × Int)) (h : Int × Int),
    List.Chain' ivSep (h :: t) → merge_blocks h t = h :: t
  | [], _, _ => rfl
  | (s, e) :: rest, h, hch => by
    have h1 : h.2 + 1 < s := (List.chain'_cons.mp hch).1
    rw [merge_blocks, if_neg (by omega)]
    rw [merge_blocks_of_sep rest (s, e) (List.chain'_cons.mp hch).2]

/-- Blocks produced from a start-sorted input are start-sorted. -/
theorem merge_blocks_sorted : ∀ (t : List (Int × Int)) (cur : Int × Int),
    List.Sorted ivLE (cur :: t) → List.Sorted ivLE (merge_blocks cur t)
  | [], cur, _ => List.sorted_singleton cur
  | (s, e) :: rest, cur, hsort => by
    have hp := List.pairwise_cons.mp hsort
    by_cases h : s ≤ cur.2 + 1
    · rw [merge_blocks, if_pos h]
      apply merge_blocks_sorted rest
      rw [List.sorted_cons]
      exact ⟨fun b hb => hp.1 b (List.mem_cons_of_mem _ hb),
             (List.sorted_cons.mp hp.2).2⟩
    · rw [merge_blocks, if_neg h]
      rw [List.sorted_cons]
      constructor
      · intro b hb
        obtain ⟨x, hx, hbs⟩ := merge_blocks_starts rest (s, e) b hb
        show cur.1 ≤ b.1
        rw [hbs]
        exact hp.1 x hx
      · exact merge_blocks_sorted rest (s, e) hp.2

/-- C5: applying compute_interval_union to its own merged block list returns
the same total covered days and the same block list. -/
theorem interval_union_idempotent (ivs : List (Int × Int)) :
    compute_interval_union ((compute_interval_union ivs).2) =
      compute_interval_union ivs := by
  cases hs : sortIvs ivs with
  | nil =>
    simp only [compute_interval_union, hs]
    rfl
  | cons h t =>
    have hsorted : List.Sorted ivLE (h :: t) :=
      hs ▸ List.sorted_insertionSort ivLE ivs
    have hcu : compute_interval_union ivs =
        (total_days (merge_blocks h t), merge_blocks h t) := by
      simp only [compute_interval_union, hs]
    have hbsorted : List.Sorted ivLE (merge_blocks h t) :=
      merge_blocks_sorted t h hsorted
    have hchain := merge_blocks_chain_sep t h
    rw [hcu]
    dsimp only
    cases hm : merge_blocks h t with
    | nil => exact absurd hm (merge_blocks_ne_nil t h)
    | cons b tb =>
      have hsortm : sortIvs (b :: tb) = b :: tb :=
        List.Sorted.insertionSort_eq (hm ▸ hbsorted)
      have hsep : List.Chain' ivSep (b :: tb) := hm ▸ hchain
      simp only [compute_interval_union, hsortm]
      rw [merge_blocks_of_sep tb b hsep]

/-! C8: tie-break determinism. -/

theorem foldl_pick_mem {α : Type} (f : α → Int) :
    ∀ (xs : List α) (x : α),
      xs.foldl (fun best c => if f best < f c then c else best) x ∈ x :: xs
  | [], x => List.mem_singleton.mpr rfl
  | a :: t, x => by
    rw [List.foldl_cons]
    have hm := foldl_pick_mem f t (if f x < f a then a else x)
    rcases List.mem_cons.mp hm with h | h
    · rw [h]
      split_ifs
      · exact List.mem_cons_of_mem x (List.mem_cons_self a t)
      · exact List.mem_cons_self x _
    · exact List.mem_cons_of_mem x (List.mem_cons_of_mem a h)

theorem foldl_pick_le {α : Type} (f : α → Int) :
    ∀ (xs : List α) (x y : α), y ∈ x :: xs →
      f y ≤ f (xs.foldl (fun best c => if f best < f c then c else best) x)
  | [], x, y, hy => by
    rcases List.mem_cons.mp hy with h | h
    · subst h
      exact le_refl _
    · exact absurd h (List.not_mem_nil y)
  | a :: t, x, y, hy => by
    rw [List.foldl_cons]
    have hxx : f x ≤ f (if f x < f a then a else x) := by
      split_ifs with h
      · exact le_of_lt h
      · exact le_refl _
    have hax : f a ≤ f (if f x < f a then a else x) := by
      split_ifs with h
      · exact le_refl _
      · exact le_of_not_lt h
    rcases List.mem_cons.mp hy with h | h
    · subst h
      exact le_trans hxx
        (foldl_pick_le f t _ _ (List.mem_cons_self _ t))
    · rcases List.mem_cons.mp h with h2 | h2
      · subst h2
        exact le_trans hax
          (foldl_pick_le f t _ _ (List.mem_cons_self _ t))
      · exact foldl_pick_le f t _ y (List.mem_cons_of_mem _ h2)

/-- C8: tie-break determinism.  With two or more cadence buckets tied at the
top vote count, the winner is one of the tied buckets and its summed member
duration is maximal among them; and whenever the canonical quantity exists it
is a quantity of maximal occurrence count that is at least every other
maximal-count quantity. -/
theorem tie_break_determinism :
    (∀ vts : List (Int × String × Int),
      2 ≤ (tied_buckets (vts.map fun v => v.2.1)).length →
        winning_bucket vts ∈ tied_buckets (vts.map fun v => v.2.1) ∧
        ∀ b ∈ tied_buckets (vts.map fun v => v.2.1),
          bucket_total_days vts b ≤ bucket_total_days vts (winning_bucket vts)) ∧
    (∀ (ls : List Line) (c : Int), canonical_qty ls = some c →
      (active_qtys ls).count c = top_qty_count (active_qtys ls) ∧
      ∀ q ∈ active_qtys ls,
        (active_qtys ls).count q = top_qty_count (active_qtys ls) → q ≤ c) := by
  constructor
  · intro vts hlen
    cases ht : tied_buckets (vts.map fun v => v.2.1) with
    | nil => rw [ht] at hlen; exact absurd hlen (by simp)
    | cons a t =>
      have hwb : winning_bucket vts =
          t.foldl (fun best c =>
            if bucket_total_days vts best < bucket_total_days vts c
            then c else best) a := by
        rw [winning_bucket]
        rw [ht, if_pos (by rw [ht] at hlen; simp at hlen ⊢; omega)]
        rfl
      rw [hwb]
      exact ⟨foldl_pick_mem _ t a, fun b hb => foldl_pick_le _ t a b hb⟩
  · intro ls c hc
    rw [canonical_qty] at hc
    by_cases hq : (active_qtys ls).isEmpty = true
    · rw [if_pos hq] at hc
      exact absurd hc (by simp)
    · rw [if_neg hq] at hc
      cases hf : (active_qtys ls).filter
          (fun q => (active_qtys ls).count q == top_qty_count (active_qtys ls)) with
      | nil =>
        rw [hf] at hc
        exact absurd hc (by simp [list_max])
      | cons x xs =>
        rw [hf, list_max] at hc
        have hceq : xs.foldl max x = c := by injection hc
        have hcmem : c ∈ (active_qtys ls).filter
            (fun q => (active_qtys ls).count q == top_qty_count (active_qtys ls)) := by
          rw [hf, ← hceq]
          exact foldl_max_mem xs x
        have hcf := List.mem_filter.mp hcmem
        refine ⟨by simpa using hcf.2, fun q hq2 hqc => ?_⟩
        have hqf : q ∈ x :: xs := by
          rw [← hf]
          exact List.mem_filter.mpr ⟨hq2, by simp [hqc]⟩
        rw [← hceq]
        rcases List.mem_cons.mp hqf with h | h
        · subst h
          exact le_foldl_max xs q
        · exact mem_le_foldl_max xs x q h

/-- Witness for `tie_break_determinism`: one annual and one bi-monthly vote
tie and resolve to annual; quantities 100,100,200,200 tie and resolve
to 200. -/
theorem tie_break_determinism_witness :
    winning_bucket [(365, "annual", 365), (60, "bi-monthly", 60)] ∈
      tied_buckets ([((365 : Int), "annual", (365 : Int)),
        (60, "bi-monthly", 60)].map fun v => v.2.1) ∧
    bucket_total_days [(365, "annual", 365), (60, "bi-monthly", 60)] "bi-monthly" ≤
      bucket_total_days [(365, "annual", 365), (60, "bi-monthly", 60)]
        (winning_bucket [(365, "annual", 365), (60, "bi-monthly", 60)]) ∧
    (active_qtys
        [⟨"released", "monthly", some 0, some 89, some 100⟩,
         ⟨"released", "monthly", some 90, some 180, some 100⟩,
         ⟨"released", "monthly", some 181, some 272, some 200⟩,
         ⟨"released", "monthly", some 273, some 364, some 200⟩]).count 200 =
      top_qty_count (active_qtys
        [⟨"released", "monthly", some 0, some 89, some 100⟩,
         ⟨"released", "monthly", some 90, some 180, some 100⟩,
         ⟨"released", "monthly", some 181, some 272, some 200⟩,
         ⟨"released", "monthly", some 273, some 364, some 200⟩]) ∧
    (100 : Int) ≤ 200 := by
  have h1 := tie_break_determinism.1
    [(365, "annual", 365), (60, "bi-monthly", 60)] (by decide)
  have h2 := tie_break_determinism.2
    [⟨"released", "monthly", some 0, some 89, some 100⟩,
     ⟨"released", "monthly", some 90, some 180, some 100⟩,
     ⟨"released", "monthly", some 181, some 272, some 200⟩,
     ⟨"released", "monthly", some 273, some 364, some 200⟩] 200 (by decide)
  exact ⟨h1.1, h1.2 "bi-monthly" (by decide), h2.1,
         h2.2 100 (by decide) (by decide)⟩

/-! C1: the renewable-coexistence condition. -/

theorem sum_durs_cons (p : Int × Int) (l : List (Int × Int)) :
    sum_durs (p :: l) = (p.2 - p.1 + 1) + sum_durs l := by
  simp [sum_durs]

theorem sum_durs_filterMap (hs he : Option Int) :
    ∀ ls' : List Line,
      sum_durs (ls'.filterMap (resolve_line hs he)) =
        (ls'.map (eff_dur hs he)).sum
  | [] => rfl
  | l :: t => by
    cases hr : resolve_line hs he l with
    | none =>
      rw [List.filterMap_cons_none hr, List.map_cons, List.sum_cons]
      rw [sum_durs_filterMap hs he t]
      simp [eff_dur, hr]
    | some p =>
      rw [List.filterMap_cons_some hr, sum_durs_cons, List.map_cons, List.sum_cons]
      rw [sum_durs_filterMap hs he t]
      simp [eff_dur, hr]

theorem mem_sum_le {α : Type} (f : α → Int) :
    ∀ (l : List α) (y : α), y ∈ l → (∀ z ∈ l, 0 ≤ f z) → f y ≤ (l.map f).sum
  | [], y, hy, _ => absurd hy (List.not_mem_nil y)
  | a :: t, y, hy, h0 => by
    rw [List.map_cons, List.sum_cons]
    rcases List.mem_cons.mp hy with h | h
    · subst h
      have hrest : 0 ≤ (t.map f).sum := by
        apply List.sum_nonneg
        intro x hx
        obtain ⟨z, hz, hzx⟩ := List.mem_map.mp hx
        rw [← hzx]
        exact h0 z (List.mem_cons_of_mem y hz)
      omega
    · have h1 := mem_sum_le f t y h (fun z hz => h0 z (List.mem_cons_of_mem a hz))
      have ha := h0 a (List.mem_cons_self a t)
      omega

theorem two_mem_sum_le {α : Type} (f : α → Int) :
    ∀ (l : List α) (x y : α), x ∈ l → y ∈ l → x ≠ y → (∀ z ∈ l, 0 ≤ f z) →
      f x + f y ≤ (l.map f).sum
  | [], x, _, hx, _, _, _ => absurd hx (List.not_mem_nil x)
  | a :: t, x, y, hx, hy, hxy, h0 => by
    rw [List.map_cons, List.sum_cons]
    rcases List.mem_cons.mp hx with h1 | h1
    · subst h1
      have hyt : y ∈ t := by
        rcases List.mem_cons.mp hy with h2 | h2
        · exact absurd h2.symm hxy
        · exact h2
      have h2 := mem_sum_le f t y hyt (fun z hz => h0 z (List.mem_cons_of_mem x hz))
      omega
    · rcases List.mem_cons.mp hy with h2 | h2
      · subst h2
        have h3 := mem_sum_le f t x h1 (fun z hz => h0 z (List.mem_cons_of_mem y hz))
        omega
      · have h4 := two_mem_sum_le f t x y h1 h2 hxy
          (fun z hz => h0 z (List.mem_cons_of_mem a hz))
        have ha := h0 a (List.mem_cons_self a t)
        omega

/-- An active line with both dates explicit spans at least four days. -/
theorem active_dated_dur (l : Line) (s e : Int) (ha : is_line_active l = true)
    (hs : l.startDate = some s) (hee : l.endDate = some e) : 4 ≤ e - s := by
  rw [is_line_active, hs, hee] at ha
  simp only [Bool.and_eq_true] at ha
  have h4 : (!decide (e - s < 4)) = true := ha.2
  simp only [Bool.not_eq_true', decide_eq_false_iff_not, not_lt] at h4
  omega

/-- C1 (amended): when an active both-null line coexists with active
explicitly dated lines inside the header window, analyze_group computes the
internal coexistence condition (`has_infinite_overlap`), and the guaranteed
duplicate coverage surfaces in the overlap metric, which is strictly
positive; no dedicated flag appears in the returned results (see the
counterexample). -/
theorem renewable_coexistence_overlap (a b : Int) (ls : List Line)
    (l1 l2 : Line)
    (h1m : l1 ∈ active_lines ls) (h2m : l2 ∈ active_lines ls)
    (h1s : l1.startDate = none) (h1e : l1.endDate = none)
    (h2se : ∃ s e, l2.startDate = some s ∧ l2.endDate = some e)
    (hall : ∀ l ∈ active_lines ls,
      (l.startDate = none ∧ l.endDate = none) ∨
      (∃ s e, l.startDate = some s ∧ l.endDate = some e ∧ a ≤ s ∧ e ≤ b)) :
    has_infinite_overlap ls = true ∧
    0 < overlap_days_calc (some a) (some b) ls := by
  obtain ⟨s2, e2, hs2, he2⟩ := h2se
  have hl2b : a ≤ s2 ∧ e2 ≤ b := by
    rcases hall l2 h2m with ⟨hn1, _⟩ | ⟨s', e', hs', he', ha', hb'⟩
    · rw [hs2] at hn1
      cases hn1
    · rw [hs2] at hs'
      rw [he2] at he'
      obtain rfl : s' = s2 := by injection hs'.symm
      obtain rfl : e' = e2 := by injection he'.symm
      exact ⟨ha', hb'⟩
  have hact2 : is_line_active l2 = true := (List.mem_filter.mp h2m).2
  have hd2 : 4 ≤ e2 - s2 := active_dated_dur l2 s2 e2 hact2 hs2 he2
  have hab : a ≤ b := by omega
  have hne12 : l1 ≠ l2 := by
    intro heq
    rw [heq, hs2] at h1s
    cases h1s
  have hres1 : resolve_line (some a) (some b) l1 = some (a, b) := by
    simp [resolve_line, h1s, h1e]
  have hres2 : resolve_line (some a) (some b) l2 = some (s2, e2) := by
    simp [resolve_line, hs2, he2]
  constructor
  · rw [has_infinite_overlap, Bool.and_eq_true]
    constructor
    · exact List.any_eq_true.mpr ⟨l1, h1m, by rw [h1s, h1e]; rfl⟩
    · exact List.any_eq_true.mpr ⟨l2, h2m, by rw [hs2, he2]; rfl⟩
  · have hf1 : eff_dur (some a) (some b) l1 = b - a + 1 := by
      simp [eff_dur, hres1]
    have hf2 : eff_dur (some a) (some b) l2 = e2 - s2 + 1 := by
      simp [eff_dur, hres2]
    have hnon : ∀ z ∈ active_lines ls, 0 ≤ eff_dur (some a) (some b) z := by
      intro z hz
      rcases hall z hz with ⟨hzn1, hzn2⟩ | ⟨s', e', hzs, hze, hza, hzb⟩
      · simp only [eff_dur, resolve_line, hzn1, hzn2]
        omega
      · have hzd := active_dated_dur z s' e' (List.mem_filter.mp hz).2 hzs hze
        simp only [eff_dur, resolve_line, hzs, hze]
        omega
    have hsum2 : eff_dur (some a) (some b) l1 + eff_dur (some a) (some b) l2 ≤
        ((active_lines ls).map (eff_dur (some a) (some b))).sum :=
      two_mem_sum_le _ _ l1 l2 h1m h2m hne12 hnon
    have hsum_eq : sum_durs (eff_ivs (some a) (some b) ls) =
        ((active_lines ls).map (eff_dur (some a) (some b))).sum := by
      have hperm := List.perm_insertionSort ivLE
        ((active_lines ls).filterMap (resolve_line (some a) (some b)))
      have h1 : sum_durs (eff_ivs (some a) (some b) ls) =
          sum_durs ((active_lines ls).filterMap (resolve_line (some a) (some b))) := by
        rw [eff_ivs, resolved_ivs, sortIvs, sum_durs, sum_durs]
        exact (hperm.map (fun p => p.2 - p.1 + 1)).sum_eq
      rw [h1]
      exact sum_durs_filterMap (some a) (some b) (active_lines ls)
    have hmem1 : (a, b) ∈ eff_ivs (some a) (some b) ls := by
      rw [eff_ivs]
      exact (List.mem_insertionSort ivLE).mpr
        (List.mem_filterMap.mpr ⟨l1, h1m, hres1⟩)
    have hEne : eff_ivs (some a) (some b) ls ≠ [] := by
      intro h
      rw [h] at hmem1
      exact absurd hmem1 (List.not_mem_nil _)
    have hbound : ∀ iv ∈ eff_ivs (some a) (some b) ls, a ≤ iv.1 ∧ iv.2 ≤ b := by
      intro iv hiv
      have hr : iv ∈ resolved_ivs (some a) (some b) ls := by
        rw [eff_ivs] at hiv
        exact (List.mem_insertionSort ivLE).mp hiv
      obtain ⟨lx, hlx, hres⟩ := List.mem_filterMap.mp hr
      rcases hall lx hlx with ⟨hn1, hn2⟩ | ⟨s', e', hzs, hze, hza, hzb⟩
      · rw [resolve_line, hn1, hn2] at hres
        simp only [Option.some_inj] at hres
        rw [← hres]
        exact ⟨le_refl a, le_refl b⟩
      · rw [resolve_line, hzs, hze] at hres
        simp only [Option.some_inj] at hres
        rw [← hres]
        exact ⟨hza, hzb⟩
    have hspan : span_days (some a) (some b) ls ≤ b - a + 1 := by
      cases hE : eff_ivs (some a) (some b) ls with
      | nil => exact absurd hE hEne
      | cons hh t =>
        obtain ⟨c1, c2⟩ := hh
        have hbnd : ∀ iv ∈ (c1, c2) :: t, a ≤ iv.1 ∧ iv.2 ≤ b := by
          rw [← hE]
          exact hbound
        have h1b := hbnd (c1, c2) (List.mem_cons_self _ t)
        have hsp2 : span_days (some a) (some b) ls =
            ((t.map Prod.snd).foldl max c2) - ((t.map Prod.fst).foldl min c1) + 1 := by
          rw [span_days, hE]
          simp [list_min, list_max]
        rw [hsp2]
        have hminb : a ≤ (t.map Prod.fst).foldl min c1 := by
          apply le_foldl_min _ _ _ h1b.1
          intro y hy
          obtain ⟨x, hx, hxy⟩ := List.mem_map.mp hy
          rw [← hxy]
          exact (hbnd x (List.mem_cons_of_mem _ hx)).1
        have hmaxb : (t.map Prod.snd).foldl max c2 ≤ b := by
          apply foldl_max_le _ _ _ h1b.2
          intro y hy
          obtain ⟨x, hx, hxy⟩ := List.mem_map.mp hy
          rw [← hxy]
          exact (hbnd x (List.mem_cons_of_mem _ hx)).2
        omega
    have hcov := (cov_bounds (some a) (some b) ls).1
    rw [overlap_days_calc, if_neg (by simp [List.isEmpty_iff, hEne])]
    have hgap : 0 < sum_durs (eff_ivs (some a) (some b) ls) -
        coverage_days (some a) (some b) ls := by
      omega
    exact lt_of_lt_of_le hgap (le_max_right 0 _)

/-- Witness for `renewable_coexistence_overlap` on one dated plus one
both-null line under header `(0, 364)`. -/
theorem renewable_coexistence_overlap_witness :
    has_infinite_overlap
      [⟨"released", "monthly", some 0, some 364, some 100⟩,
       ⟨"released", "monthly", none, none, some 100⟩] = true ∧
    0 < overlap_days_calc (some 0) (some 364)
      [⟨"released", "monthly", some 0, some 364, some 100⟩,
       ⟨"released", "monthly", none, none, some 100⟩] := by
  apply renewable_coexistence_overlap 0 364 _
    (⟨"released", "monthly", none, none, some 100⟩ : Line)
    (⟨"released", "monthly", some 0, some 364, some 100⟩ : Line)
  · decide
  · decide
  · rfl
  · rfl
  · exact ⟨0, 364, rfl, rfl⟩
  · intro l hl
    have hact : active_lines
        [⟨"released", "monthly", some 0, some 364, some 100⟩,
         ⟨"released", "monthly", none, none, some 100⟩] =
        [⟨"released", "monthly", some 0, some 364, some 100⟩,
         ⟨"released", "monthly", none, none, some 100⟩] := by decide
    rw [hact] at hl
    rcases List.mem_cons.mp hl with rfl | hl2
    · exact Or.inr ⟨0, 364, rfl, rfl, le_refl 0, le_refl 364⟩
    rcases List.mem_cons.mp hl2 with rfl | hl3
    · exact Or.inl ⟨rfl, rfl⟩
    · exact absurd hl3 (List.not_mem_nil l)

/-- C1 counterexample: a group satisfying the coexistence condition and a
date-equivalent group violating it produce identical analyze_group output,
so no returned group-level or per-line result carries the derived flag. -/
theorem flag_not_surfaced_cex :
    analyze_group
        [⟨"released", "monthly", some 0, some 364, some 100⟩,
         ⟨"released", "monthly", none, none, some 100⟩]
        (some 0) (some 364) =
      analyze_group
        [⟨"released", "monthly", some 0, some 364, some 100⟩,
         ⟨"released", "monthly", some 0, some 364, some 100⟩]
        (some 0) (some 364) ∧
    has_infinite_overlap
      [⟨"released", "monthly", some 0, some 364, some 100⟩,
       ⟨"released", "monthly", none, none, some 100⟩] = true ∧
    has_infinite_overlap
      [⟨"released", "monthly", some 0, some 364, some 100⟩,
       ⟨"released", "monthly", some 0, some 364, some 100⟩] = false := by decide

/-! C10: groups whose active lines are all unresolvable. -/

/-- C10: when a group has active lines but none can be resolved to an
effective interval, the reported pattern is "irregular" with 0 inferred days
and 100% confidence. -/
theorem unresolved_group_irregular (ls : List Line) (hs he : Option Int)
    (h1 : active_lines ls ≠ [])
    (h2 : ∀ l ∈ active_lines ls, resolve_line hs he l = none) :
    (analyze_group ls hs he).1.inferred_period_pattern = Cell.val "irregular" ∧
    (analyze_group ls hs he).1.inferred_period_days = Cell.val 0 ∧
    (analyze_group ls hs he).1.period_confidence_pct = Cell.val 100 := by
  have hv : votes hs he ls = [] := by
    rw [votes, List.filterMap_eq_nil_iff]
    intro l hl
    rw [line_vote, h2 l hl]
    rfl
  have hpr : pattern_result hs he ls = ("irregular", 0, (active_lines ls).length) := by
    rw [pattern_result, hv]
    rfl
  have hne : (active_lines ls).isEmpty = false := by
    cases hAL : active_lines ls with
    | nil => exact absurd hAL h1
    | cons a t => rfl
  have hlen : 0 < ((active_lines ls).length : Int) :=
    mod_cast List.length_pos.mpr h1
  rw [analyze_group, if_neg (by rw [hne]; exact Bool.false_ne_true)]
  dsimp only
  rw [hpr]
  refine ⟨rfl, rfl, ?_⟩
  dsimp only
  rw [pyRoundDiv_mul_self _ hlen]

/-- Witness for `unresolved_group_irregular` on one dateless line without
header dates. -/
theorem unresolved_group_irregular_witness :
    active_lines [⟨"released", "monthly", none, none, some 100⟩] ≠ [] ∧
    (analyze_group [⟨"released", "monthly", none, none, some 100⟩]
        none none).1.inferred_period_pattern = Cell.val "irregular" ∧
    (analyze_group [⟨"released", "monthly", none, none, some 100⟩]
        none none).1.inferred_period_days = Cell.val 0 ∧
    (analyze_group [⟨"released", "monthly", none, none, some 100⟩]
        none none).1.period_confidence_pct = Cell.val 100 := by
  have h := unresolved_group_irregular
    [⟨"released", "monthly", none, none, some 100⟩] none none
    (by decide) (by decide)
  exact ⟨by decide, h.1, h.2.1, h.2.2⟩

/-! C3: the cadence-confidence denominator. -/

/-- C3 (amended): the cadence confidence equals the winning vote count
divided by the total number of active lines — including active lines that
could not be resolved — times 100, rounded half-to-even; when every active
line resolves, this denominator coincides with the resolved-line count the
claim names. -/
theorem period_confidence_formula (hs he : Option Int) (ls : List Line)
    (h : active_lines ls ≠ []) :
    (analyze_group ls hs he).1.period_confidence_pct =
      Cell.val (pyRoundDiv (((pattern_result hs he ls).2.2 : Int) * 100)
        ((active_lines ls).length : Int)) ∧
    ((∀ l ∈ active_lines ls, (resolve_line hs he l).isSome) →
      (votes hs he ls).length = (active_lines ls).length) := by
  constructor
  · have hne : (active_lines ls).isEmpty = false := by
      cases hAL : active_lines ls with
      | nil => exact absurd hAL h
      | cons a t => rfl
    rw [analyze_group, if_neg (by rw [hne]; exact Bool.false_ne_true)]
  · intro hall
    rw [votes]
    refine length_filterMap_of_all_some _ _ (fun l hl => ?_)
    rw [line_vote]
    simpa using hall l hl

/-- Witness for `period_confidence_formula` on a fully resolved group. -/
theorem period_confidence_formula_witness :
    active_lines [⟨"released", "monthly", some 0, some 89, some 100⟩] ≠ [] ∧
    (analyze_group [⟨"released", "monthly", some 0, some 89, some 100⟩]
        none none).1.period_confidence_pct =
      Cell.val (pyRoundDiv
        (((pattern_result none none
            [⟨"released", "monthly", some 0, some 89, some 100⟩]).2.2 : Int) * 100)
        ((active_lines [⟨"released", "monthly", some 0, some 89, some 100⟩]).length : Int)) ∧
    (votes none none [⟨"released", "monthly", some 0, some 89, some 100⟩]).length =
      (active_lines [⟨"released", "monthly", some 0, some 89, some 100⟩]).length := by
  have h := period_confidence_formula none none
    [⟨"released", "monthly", some 0, some 89, some 100⟩] (by decide)
  exact ⟨by decide, h.1, h.2 (by decide)⟩

/-- C3 counterexample: a group with two active lines of which only one
resolves reports 50% confidence, while the claim's resolved-line denominator
would give 100%. -/
theorem period_confidence_cex :
    (analyze_group [⟨"released", "monthly", some 0, some 364, some 100⟩,
                    ⟨"released", "monthly", none, none, some 100⟩]
        none none).1.period_confidence_pct = Cell.val 50 ∧
    (votes none none [⟨"released", "monthly", some 0, some 364, some 100⟩,
                      ⟨"released", "monthly", none, none, some 100⟩]).length = 1 ∧
    (pattern_result none none [⟨"released", "monthly", some 0, some 364, some 100⟩,
                               ⟨"released", "monthly", none, none, some 100⟩]).2.2 = 1 ∧
    pyRoundDiv ((1 : Int) * 100) 1 = 100 ∧
    Cell.val (50 : Int) ≠ Cell.val (100 : Int) := by decide

/-! C2: the per-line quantity-outlier flag. -/

/-- C2 (amended): the quantity-outlier flag is not-applicable exactly for
inactive lines and for lines of groups without a canonical quantity; an
active line of a group with canonical quantity `c` is flagged YES whenever
its quantity differs from `c` — including when its quantity is null. -/
theorem qty_outlier_characterization (hs he : Option Int) (ls : List Line)
    (l : Line) :
    (is_line_active l = false →
      (line_result hs he ls l).is_qty_outlier = Flag.na) ∧
    (canonical_qty ls = none →
      (line_result hs he ls l).is_qty_outlier = Flag.na) ∧
    (∀ c : Int, is_line_active l = true → canonical_qty ls = some c →
      (line_result hs he ls l).is_qty_outlier =
        (if l.qty = some c then Flag.no else Flag.yes)) ∧
    (active_lines ls ≠ [] →
      (analyze_group ls hs he).2 = ls.map (line_result hs he ls)) := by
  refine ⟨fun h => ?_, fun h => ?_, fun c ha hc => ?_, fun h => ?_⟩
  · simp [line_result, h]
  · cases ha : is_line_active l <;> simp [line_result, ha, h]
  · simp [line_result, ha, hc]
  · have hne : (active_lines ls).isEmpty = false := by
      cases hAL : active_lines ls with
      | nil => exact absurd hAL h
      | cons a t => rfl
    rw [analyze_group, if_neg (by rw [hne]; exact Bool.false_ne_true)]

/-- Witness for `qty_outlier_characterization` covering all four cases. -/
theorem qty_outlier_characterization_witness :
    (line_result none none
        [⟨"released", "monthly", some 0, some 364, some 100⟩]
        ⟨"cancelled", "monthly", some 0, some 364, some 100⟩).is_qty_outlier = Flag.na ∧
    (line_result none none [⟨"released", "monthly", some 0, some 364, none⟩]
        ⟨"released", "monthly", some 0, some 364, none⟩).is_qty_outlier = Flag.na ∧
    (line_result none none
        [⟨"released", "monthly", some 0, some 364, some 100⟩,
         ⟨"released", "monthly", some 0, some 364, none⟩]
        ⟨"released", "monthly", some 0, some 364, none⟩).is_qty_outlier =
      (if (⟨"released", "monthly", some 0, some 364, none⟩ : Line).qty = some 100
       then Flag.no else Flag.yes) ∧
    (analyze_group [⟨"released", "monthly", some 0, some 364, some 100⟩]
        none none).2 =
      [⟨"released", "monthly", some 0, some 364, some 100⟩].map
        (line_result none none [⟨"released", "monthly", some 0, some 364, some 100⟩]) := by
  refine ⟨(qty_outlier_characterization none none _ _).1 (by decide),
          (qty_outlier_characterization none none _ _).2.1 (by decide),
          (qty_outlier_characterization none none _ _).2.2.1 100 (by decide) (by decide),
          (qty_outlier_characterization none none
            [⟨"released", "monthly", some 0, some 364, some 100⟩]
            ⟨"released", "monthly", some 0, some 364, some 100⟩).2.2.2 (by decide)⟩

/-- C2 counterexample: an active line with a null quantity in a group whose
canonical quantity exists is flagged YES, not N/A. -/
theorem qty_outlier_null_qty_cex :
    (analyze_group [⟨"released", "monthly", some 0, some 364, some 100⟩,
                    ⟨"released", "monthly", some 0, some 364, none⟩]
        none none).2 =
      [⟨Flag.no, Flag.no⟩, ⟨Flag.no, Flag.yes⟩] ∧
    is_line_active ⟨"released", "monthly", some 0, some 364, none⟩ = true ∧
    (⟨"released", "monthly", some 0, some 364, none⟩ : Line).qty = none ∧
    Flag.yes ≠ Flag.na := by decide

end QA
